import Mathlib

/-!
# Verification of the ritalin-dose-sim kinetics engine

Shallow embedding of `ritalin_dose_plotter.py` over the exact reals.
The source's numpy float arrays are modelled as `List ℝ`; each numpy
operation used by the script (`np.arange`, elementwise formula, `max`,
`argmax`, `np.trapz`, `scipy.optimize.root_scalar` with `brentq`) is
embedded by its documented exact-arithmetic semantics.
-/

open Real

namespace RitalinSim

/-- `k = np.log(2) / half_life` — the first-order elimination rate constant
(line 74 of the source). -/
noncomputable def k_elim (half_life : ℝ) : ℝ := Real.log 2 / half_life

/-- `np.arange(0.0, stop, dt)`: the values `i * dt` for `i = 0, 1, …`
strictly below `stop`; with exact arithmetic this is `⌈stop / dt⌉` points
(numpy computes the length as `ceil((stop - start) / step)`). -/
noncomputable def arange (stop dt : ℝ) : List ℝ :=
  (List.range ⌈stop / dt⌉₊).map (fun i : ℕ => (i : ℝ) * dt)

/-- Contribution of a single dose `(t_d, dose)` to the body amount at time `t`
(lines 78–80 of the source):
`delta_t = np.maximum(t - t_d, 0)`,
`term = dose * k_absorb / (k_absorb - k)`,
contribution `= term * (exp(-k*delta_t) - exp(-k_absorb*delta_t))`. -/
noncomputable def doseContrib (half_life k_absorb t_d dose t : ℝ) : ℝ :=
  let k := k_elim half_life
  let delta_t := max (t - t_d) 0
  dose * k_absorb / (k_absorb - k) *
    (Real.exp (-k * delta_t) - Real.exp (-k_absorb * delta_t))

/-- Total amount at time `t`: the loop `for t_d, dose in zip(dose_times,
dose_amounts): conc += …` of lines 77–80, i.e. the sum of the per-dose
contributions over the zip of the two input lists. -/
noncomputable def conc (dose_times dose_amounts : List ℝ)
    (half_life k_absorb t : ℝ) : ℝ :=
  ((dose_times.zip dose_amounts).map
    (fun p => doseContrib half_life k_absorb p.1 p.2 t)).sum

/-- `concentration_profile(dose_times, dose_amounts, half_life, k_absorb,
t_end, dt)` (lines 72–81): returns the pair `(t, conc)` with
`t = np.arange(0.0, t_end + dt, dt)` and `conc` the superposition of the
per-dose contributions evaluated at each grid time. -/
noncomputable def concentration_profile (dose_times dose_amounts : List ℝ)
    (half_life k_absorb t_end dt : ℝ) : List ℝ × List ℝ :=
  let t := arange (t_end + dt) dt
  (t, t.map (conc dose_times dose_amounts half_life k_absorb))

/-- Objective of the Tmax solver (lines 85–88):
`f(ka) = (log(ka) - log(ke)) / (ka - ke) - tmax` with `ke = k_elim half_life`.
The guard of line 86 returns `np.inf` for `ka ≤ ke`; `brentq` evaluates `f`
only inside `bracket = [ke + 1e-6, 10]`, every point of which exceeds `ke`
whenever the bracket is queried in the claims below, so the guard branch is
not modelled (ℝ has no infinity). -/
noncomputable def ka_f (tmax half_life ka : ℝ) : ℝ :=
  (Real.log ka - Real.log (k_elim half_life)) / (ka - k_elim half_life) - tmax

/-- Outcome of `estimate_ka` (lines 83–90).  `root_scalar(..., method=..)` with
Brent either returns a converged root, or raises `ValueError` before any
iteration when `f` has the same sign at both bracket endpoints; that
exception is not caught and escapes `estimate_ka`.  `noneResult` models the
`else None` of line 90, which Brent never produces (on a valid bracket the
method is guaranteed to converge), making line 90 dead code. -/
inductive KaResult where
  | root (x : ℝ)
  | noneResult
  | valueError

open Classical in
/-- `estimate_ka(tmax, half_life)` (lines 83–90), idealised over exact reals:
`brentq` demands a sign change of `f` over `bracket = [ke + 1e-6, 10]`
(otherwise it raises `ValueError`), and given a sign change Brent converges
to a root of `f` inside the bracket. -/
noncomputable def estimate_ka (tmax half_life : ℝ) : KaResult :=
  if h : ka_f tmax half_life (k_elim half_life + 1e-6) * ka_f tmax half_life 10 ≤ 0
      ∧ ∃ x, k_elim half_life + 1e-6 ≤ x ∧ x ≤ 10 ∧ ka_f tmax half_life x = 0
  then KaResult.root h.2.choose
  else KaResult.valueError

/-- The root carried by a `KaResult.root`, junk value 0 otherwise. -/
noncomputable def ka_root_value : KaResult → ℝ
  | KaResult.root x => x
  | KaResult.noneResult => 0
  | KaResult.valueError => 0

/-- `arr.max()` on a numpy array, modelled on lists: the greatest element
(junk value 0 on the empty array, where numpy raises). -/
noncomputable def np_max : List ℝ → ℝ
  | [] => 0
  | [v] => v
  | v :: rest => max v (np_max rest)

/-- `arr.argmax()`: index of the first occurrence of the maximum value
(numpy documents that ties resolve to the first occurrence); 0 on the
empty array. -/
noncomputable def np_argmax : List ℝ → ℕ
  | [] => 0
  | [_] => 0
  | v :: rest => if np_max rest ≤ v then 0 else np_argmax rest + 1

/-- `np.trapz(y, x)`: trapezoidal-rule integral of samples `y` against
abscissae `x`. -/
noncomputable def trapz : List ℝ → List ℝ → ℝ
  | y1 :: y2 :: ys, x1 :: x2 :: xs =>
      (x2 - x1) * (y1 + y2) / 2 + trapz (y2 :: ys) (x2 :: xs)
  | _, _ => 0

/-- The quick metrics of lines 161–162: peak amount `conc.max()`, peak time
`t[conc.argmax()]`, and `auc = np.trapz(conc, t)`. -/
noncomputable def summarize (t concs : List ℝ) : ℝ × ℝ × ℝ :=
  (np_max concs, t.getD (np_argmax concs) 0, trapz concs t)

/-! ## Helper lemmas -/

lemma doseContrib_of_le (half_life k_absorb t_d dose t : ℝ) (h : t ≤ t_d) :
    doseContrib half_life k_absorb t_d dose t = 0 := by
  have hmax : max (t - t_d) 0 = 0 := max_eq_right (by linarith)
  simp [doseContrib, hmax]

lemma doseContrib_nonneg (half_life k_absorb t_d dose t : ℝ)
    (hhl : 0 < half_life) (hka : 0 < k_absorb)
    (hne : k_absorb ≠ k_elim half_life) (hdose : 0 ≤ dose) :
    0 ≤ doseContrib half_life k_absorb t_d dose t := by
  have hk : 0 < k_elim half_life :=
    div_pos (Real.log_pos one_lt_two) hhl
  set k := k_elim half_life with hkdef
  set d : ℝ := max (t - t_d) 0 with hd
  have hd0 : 0 ≤ d := le_max_right _ _
  rcases lt_or_gt_of_ne hne with hlt | hgt
  · -- k_absorb < k : both factors are nonpositive
    have hfac : dose * k_absorb / (k_absorb - k) ≤ 0 :=
      div_nonpos_of_nonneg_of_nonpos (mul_nonneg hdose hka.le) (by linarith)
    have hexp : Real.exp (-k * d) - Real.exp (-k_absorb * d) ≤ 0 := by
      have : -k * d ≤ -k_absorb * d := by nlinarith
      have := Real.exp_le_exp.2 this
      linarith
    have hprod := mul_nonneg (neg_nonneg.2 hfac) (neg_nonneg.2 hexp)
    rw [neg_mul_neg] at hprod
    simpa [doseContrib, ← hkdef, ← hd] using hprod
  · -- k < k_absorb : both factors are nonnegative
    have hfac : 0 ≤ dose * k_absorb / (k_absorb - k) :=
      div_nonneg (mul_nonneg hdose hka.le) (by linarith)
    have hexp : 0 ≤ Real.exp (-k * d) - Real.exp (-k_absorb * d) := by
      have : -k_absorb * d ≤ -k * d := by nlinarith
      have := Real.exp_le_exp.2 this
      linarith
    simpa [doseContrib, ← hkdef, ← hd] using mul_nonneg hfac hexp

lemma doseContrib_smul (half_life k_absorb t_d dose t c : ℝ) :
    doseContrib half_life k_absorb t_d (c * dose) t
      = c * doseContrib half_life k_absorb t_d dose t := by
  unfold doseContrib
  ring

lemma conc_append (t1 a1 t2 a2 : List ℝ) (half_life k_absorb x : ℝ)
    (hlen : t1.length = a1.length) :
    conc (t1 ++ t2) (a1 ++ a2) half_life k_absorb x
      = conc t1 a1 half_life k_absorb x + conc t2 a2 half_life k_absorb x := by
  unfold conc
  rw [List.zip_append hlen, List.map_append, List.sum_append]

lemma conc_eq_zero_of_forall_lt (times amts : List ℝ) (half_life k_absorb t : ℝ)
    (h : ∀ s ∈ times, t < s) :
    conc times amts half_life k_absorb t = 0 := by
  unfold conc
  apply List.sum_eq_zero
  intro x hx
  obtain ⟨p, hp, rfl⟩ := List.mem_map.1 hx
  exact doseContrib_of_le _ _ _ _ _ (h p.1 (List.of_mem_zip hp).1).le

lemma conc_nonneg (times amts : List ℝ) (half_life k_absorb t : ℝ)
    (hhl : 0 < half_life) (hka : 0 < k_absorb)
    (hne : k_absorb ≠ k_elim half_life) (hamts : ∀ a ∈ amts, 0 < a) :
    0 ≤ conc times amts half_life k_absorb t := by
  unfold conc
  apply List.sum_nonneg
  intro x hx
  obtain ⟨p, hp, rfl⟩ := List.mem_map.1 hx
  exact doseContrib_nonneg _ _ _ _ _ hhl hka hne
    (hamts p.2 (List.of_mem_zip hp).2).le

lemma conc_smul (times amts : List ℝ) (half_life k_absorb t c : ℝ) :
    conc times (amts.map (fun a => c * a)) half_life k_absorb t
      = c * conc times amts half_life k_absorb t := by
  unfold conc
  rw [List.zip_map_right, List.map_map]
  have hfun : ((fun p : ℝ × ℝ => doseContrib half_life k_absorb p.1 p.2 t)
        ∘ Prod.map id fun a => c * a)
      = fun p : ℝ × ℝ => c * doseContrib half_life k_absorb p.1 p.2 t := by
    funext p
    simpa [Function.comp, Prod.map] using doseContrib_smul half_life k_absorb p.1 p.2 t c
  rw [hfun, List.sum_map_mul_left]

lemma zip_take_min {α β : Type} :
    ∀ (l₁ : List α) (l₂ : List β),
      l₁.zip l₂ = (l₁.take (min l₁.length l₂.length)).zip
        (l₂.take (min l₁.length l₂.length))
  | [], _ => by simp
  | _ :: _, [] => by simp
  | a :: l₁, b :: l₂ => by
    simp only [List.length_cons, Nat.succ_min_succ, List.take_succ_cons,
      List.zip_cons_cons]
    exact congrArg _ (zip_take_min l₁ l₂)

lemma arange_length (s dt : ℝ) : (arange s dt).length = ⌈s / dt⌉₊ := by
  simp [arange]

lemma arange_getD (s dt : ℝ) (i : ℕ) (h : i < ⌈s / dt⌉₊) :
    (arange s dt).getD i 0 = (i : ℝ) * dt := by
  simp [arange, List.getElem?_range h]

lemma arange_chain' (s dt : ℝ) (hdt : 0 ≤ dt) :
    (arange s dt).Chain' (· ≤ ·) := by
  unfold arange
  rw [List.chain'_map]
  rcases n : ⌈s / dt⌉₊ with - | m
  · simp
  · rw [List.chain'_range_succ]
    intro i _
    have : (i : ℝ) ≤ ((i + 1 : ℕ) : ℝ) := by push_cast; linarith
    exact mul_le_mul_of_nonneg_right this hdt

lemma ceil_grid_add_one (d s : ℝ) (hd : 0 ≤ d) (hs : 0 < s) :
    ⌈(d + s) / s⌉₊ = ⌈d / s⌉₊ + 1 := by
  have hdiv : (d + s) / s = d / s + 1 := by
    field_simp
  rw [hdiv, Nat.ceil_add_one (div_nonneg hd hs.le)]

lemma np_max_cons_cons (v y : ℝ) (l : List ℝ) :
    np_max (v :: y :: l) = max v (np_max (y :: l)) := rfl

lemma np_argmax_cons_cons (v y : ℝ) (l : List ℝ) :
    np_argmax (v :: y :: l)
      = if np_max (y :: l) ≤ v then 0 else np_argmax (y :: l) + 1 := rfl

lemma le_np_max (l : List ℝ) : ∀ v ∈ l, v ≤ np_max l := by
  induction l with
  | nil => simp
  | cons v rest ih =>
    cases rest with
    | nil =>
      intro x hx
      rw [List.mem_singleton.1 hx]
      exact le_of_eq rfl
    | cons y r =>
      intro x hx
      rw [np_max_cons_cons]
      rcases List.mem_cons.1 hx with rfl | hx
      · exact le_max_left _ _
      · exact le_trans (ih x hx) (le_max_right _ _)

lemma np_argmax_lt_length : ∀ (l : List ℝ), l ≠ [] → np_argmax l < l.length
  | [_], _ => by simp [np_argmax]
  | v :: y :: r, _ => by
    rw [np_argmax_cons_cons]
    by_cases h : np_max (y :: r) ≤ v
    · simp [h]
    · rw [if_neg h]
      have := np_argmax_lt_length (y :: r) (by simp)
      simpa [List.length_cons] using Nat.succ_lt_succ this

lemma getD_np_argmax : ∀ (l : List ℝ), l ≠ [] → l.getD (np_argmax l) 0 = np_max l
  | [v], _ => by simp [np_argmax, np_max]
  | v :: y :: r, _ => by
    rw [np_argmax_cons_cons, np_max_cons_cons]
    by_cases h : np_max (y :: r) ≤ v
    · rw [if_pos h, max_eq_left h]
      rfl
    · push_neg at h
      rw [if_neg (not_le.2 h), List.getD_cons_succ,
        getD_np_argmax (y :: r) (by simp), max_eq_right h.le]

lemma getD_lt_np_max_of_lt_argmax :
    ∀ (l : List ℝ) (j : ℕ), j < np_argmax l → l.getD j 0 < np_max l
  | [], j, h => by simp [np_argmax] at h
  | [_], j, h => by simp [np_argmax] at h
  | v :: y :: r, j, h => by
    rw [np_argmax_cons_cons] at h
    by_cases hc : np_max (y :: r) ≤ v
    · rw [if_pos hc] at h
      omega
    · rw [if_neg hc] at h
      push_neg at hc
      rw [np_max_cons_cons, max_eq_right hc.le]
      cases j with
      | zero => simpa using hc
      | succ j' =>
        rw [List.getD_cons_succ]
        exact getD_lt_np_max_of_lt_argmax (y :: r) j' (by omega)

lemma trapz_nil_left (xs : List ℝ) : trapz [] xs = 0 := by
  cases xs with
  | nil => rfl
  | cons x xtl => rfl

lemma trapz_single (y : ℝ) (xs : List ℝ) : trapz [y] xs = 0 := by
  cases xs with
  | nil => rfl
  | cons x xtl => cases xtl <;> rfl

lemma trapz_short_right (y1 y2 : ℝ) (ys : List ℝ) :
    trapz (y1 :: y2 :: ys) [] = 0 ∧ ∀ x, trapz (y1 :: y2 :: ys) [x] = 0 :=
  ⟨rfl, fun _ => rfl⟩

lemma trapz_cons_cons (y1 y2 x1 x2 : ℝ) (ys xs : List ℝ) :
    trapz (y1 :: y2 :: ys) (x1 :: x2 :: xs)
      = (x2 - x1) * (y1 + y2) / 2 + trapz (y2 :: ys) (x2 :: xs) := rfl

lemma trapz_nonneg (ys : List ℝ) :
    ∀ xs : List ℝ, (∀ y ∈ ys, 0 ≤ y) → xs.Chain' (· ≤ ·) → 0 ≤ trapz ys xs := by
  induction ys with
  | nil => intro xs _ _; rw [trapz_nil_left]
  | cons y1 ytl ih =>
    intro xs hy hx
    cases ytl with
    | nil => rw [trapz_single]
    | cons y2 ys' =>
      cases xs with
      | nil => rw [(trapz_short_right y1 y2 ys').1]
      | cons x1 xtl =>
        cases xtl with
        | nil => rw [(trapz_short_right y1 y2 ys').2 x1]
        | cons x2 xs' =>
          rw [trapz_cons_cons]
          obtain ⟨h12, hx'⟩ := List.chain'_cons.1 hx
          have hy1 : 0 ≤ y1 := hy y1 (by simp)
          have hy2 : 0 ≤ y2 := hy y2 (by simp)
          have hrec := ih (x2 :: xs')
            (fun y hmem => hy y (List.mem_cons_of_mem _ hmem)) hx'
          have hstep : 0 ≤ (x2 - x1) * (y1 + y2) / 2 :=
            div_nonneg (mul_nonneg (by linarith) (by linarith)) (by norm_num)
          linarith

lemma trapz_smul (c : ℝ) (ys : List ℝ) :
    ∀ xs : List ℝ, trapz (ys.map (fun y => c * y)) xs = c * trapz ys xs := by
  induction ys with
  | nil => intro xs; rw [List.map_nil, trapz_nil_left, mul_zero]
  | cons y1 ytl ih =>
    intro xs
    cases ytl with
    | nil => rw [List.map_cons, List.map_nil, trapz_single, trapz_single, mul_zero]
    | cons y2 ys' =>
      cases xs with
      | nil =>
        rw [List.map_cons, List.map_cons, (trapz_short_right y1 y2 ys').1,
          (trapz_short_right _ _ _).1, mul_zero]
      | cons x1 xtl =>
        cases xtl with
        | nil =>
          rw [List.map_cons, List.map_cons, (trapz_short_right y1 y2 ys').2 x1,
            (trapz_short_right _ _ _).2 x1, mul_zero]
        | cons x2 xs' =>
          have hih := ih (x2 :: xs')
          rw [List.map_cons] at hih
          rw [List.map_cons, List.map_cons, trapz_cons_cons, trapz_cons_cons, hih]
          ring

lemma log_sub_log_ge (b a : ℝ) (hb : 0 < b) (hab : b ≤ a) :
    (a - b) / a ≤ Real.log a - Real.log b := by
  have ha0 : 0 < a := lt_of_lt_of_le hb hab
  have h := Real.log_le_sub_one_of_pos (div_pos hb ha0)
  rw [Real.log_div hb.ne' ha0.ne'] at h
  have h2 : b / a - 1 = (b - a) / a := by field_simp
  have h3 : (a - b) / a = -((b - a) / a) := by ring
  rw [h3]
  linarith [h2 ▸ h]

lemma arange_getElem? (s dt : ℝ) (i : ℕ) (h : i < ⌈s / dt⌉₊) :
    (arange s dt)[i]? = some ((i : ℝ) * dt) := by
  unfold arange
  rw [List.getElem?_map, List.getElem?_range h]
  rfl

lemma profile_value_getD (times amts : List ℝ) (half_life k_absorb t_end dt : ℝ)
    (i : ℕ) (h : i < ⌈(t_end + dt) / dt⌉₊) :
    (concentration_profile times amts half_life k_absorb t_end dt).2.getD i 0
      = conc times amts half_life k_absorb ((i : ℝ) * dt) := by
  simp only [concentration_profile]
  rw [List.getD_eq_getElem?_getD, List.getElem?_map, arange_getElem? _ _ _ h]
  rfl

lemma one_ne_k_elim_three : (1:ℝ) ≠ k_elim 3 := by
  have hlt := Real.log_two_lt_d9
  intro h
  rw [show k_elim 3 = Real.log 2 / 3 from rfl,
    eq_div_iff (by norm_num : (3:ℝ) ≠ 0)] at h
  linarith

/-! ## Claim theorems -/

/-- C2: for `Tmax = 0.01 h`, `half_life = 3 h`, the solver objective is
strictly positive at both ends of the bracket `[ke + 1e-6, 10]`, so
`brentq` finds no sign change and raises `ValueError`; the exception
escapes `estimate_ka` uncaught instead of an explicit no-solution result
(the `else None` of line 90 is unreachable).  This contradicts the claim,
which the code itself intends to satisfy — a code bug. -/
theorem estimate_ka_uncaught_value_error :
    0 < ka_f (1/100) 3 (k_elim 3 + 1e-6)
    ∧ 0 < ka_f (1/100) 3 10
    ∧ estimate_ka (1/100) 3 = KaResult.valueError := by
  have hlog2pos : 0 < Real.log 2 := Real.log_pos one_lt_two
  have hlog2lt : Real.log 2 < 0.6931471808 := Real.log_two_lt_d9
  have hkeval : k_elim 3 = Real.log 2 / 3 := rfl
  have hke0 : 0 < k_elim 3 := by rw [hkeval]; positivity
  have hkelt : k_elim 3 < 1/4 := by rw [hkeval]; linarith
  have ha0 : (0:ℝ) < k_elim 3 + 1e-6 := by linarith
  have hfa : 0 < ka_f (1/100) 3 (k_elim 3 + 1e-6) := by
    have hlb := log_sub_log_ge (k_elim 3) (k_elim 3 + 1e-6) hke0 (by norm_num)
    have hnum : k_elim 3 + 1e-6 - k_elim 3 = 1e-6 := by ring
    rw [hnum] at hlb
    unfold ka_f
    rw [hnum, lt_sub_iff_add_lt, zero_add,
      lt_div_iff₀ (by norm_num : (0:ℝ) < 1e-6)]
    have hstep : (1/100 : ℝ) * 1e-6 < 1e-6 / (k_elim 3 + 1e-6) := by
      rw [lt_div_iff₀ ha0]
      nlinarith
    linarith
  have hfb : 0 < ka_f (1/100) 3 10 := by
    have hlog10 : 1 < Real.log 10 := by
      rw [show (1:ℝ) = Real.log (Real.exp 1) from (Real.log_exp 1).symm]
      refine Real.log_lt_log (Real.exp_pos 1) ?_
      have := Real.exp_one_lt_d9
      linarith
    have hlogke : Real.log (k_elim 3) < 0 := Real.log_neg hke0 (by linarith)
    unfold ka_f
    rw [lt_sub_iff_add_lt, zero_add,
      lt_div_iff₀ (by linarith : (0:ℝ) < 10 - k_elim 3)]
    nlinarith
  refine ⟨hfa, hfb, ?_⟩
  unfold estimate_ka
  rw [dif_neg]
  exact fun hAB => absurd hAB.1 (not_le.2 (mul_pos hfa hfb))

/-- C6: whenever `estimate_ka` converges and returns a root, that root lies
above the elimination constant, inside the search bracket (its upper end is
`10`), and satisfies the peak-time equation
`Tmax = (log ka - log k) / (ka - k)` exactly (the exact-real idealisation of
"to within numerical tolerance"). -/
theorem estimate_ka_root_in_bracket (tmax half_life r : ℝ)
    (h : estimate_ka tmax half_life = KaResult.root r) :
    k_elim half_life < r ∧ r ≤ 10
      ∧ (Real.log r - Real.log (k_elim half_life)) / (r - k_elim half_life)
          = tmax := by
  unfold estimate_ka at h
  split at h
  case isTrue hc =>
    obtain ⟨hx1, hx2, hx3⟩ := hc.2.choose_spec
    injection h with hr
    rw [hr] at hx1 hx2 hx3
    refine ⟨by linarith, hx2, ?_⟩
    unfold ka_f at hx3
    linarith
  case isFalse hc => exact KaResult.noConfusion h

/-- Witness for C6 at `half_life = log 2` (so `ke = 1`) and
`Tmax = 1 / (e - 1)`, where the objective has the exact root `ka = e`
inside the bracket and a sign change across it. -/
theorem estimate_ka_root_in_bracket_witness :
    estimate_ka (1/(Real.exp 1 - 1)) (Real.log 2)
        = KaResult.root (ka_root_value (estimate_ka (1/(Real.exp 1 - 1)) (Real.log 2)))
    ∧ k_elim (Real.log 2)
        < ka_root_value (estimate_ka (1/(Real.exp 1 - 1)) (Real.log 2))
    ∧ ka_root_value (estimate_ka (1/(Real.exp 1 - 1)) (Real.log 2)) ≤ 10 := by
  have hlog2pos : 0 < Real.log 2 := Real.log_pos one_lt_two
  have hkeH : k_elim (Real.log 2) = 1 := div_self hlog2pos.ne'
  have he_gt : (2.7182818283 : ℝ) < Real.exp 1 := Real.exp_one_gt_d9
  have he_lt : Real.exp 1 < 2.7182818286 := Real.exp_one_lt_d9
  have he1 : (0:ℝ) < Real.exp 1 - 1 := by linarith
  -- the objective at the exact root e
  have hroot : ka_f (1/(Real.exp 1 - 1)) (Real.log 2) (Real.exp 1) = 0 := by
    unfold ka_f
    rw [hkeH, Real.log_one, Real.log_exp, sub_zero, sub_eq_zero]
  -- sign at the lower bracket end 1 + 1e-6
  have hfa : 0 < ka_f (1/(Real.exp 1 - 1)) (Real.log 2) (k_elim (Real.log 2) + 1e-6) := by
    have hlb := log_sub_log_ge 1 (1 + 1e-6) one_pos (by norm_num)
    rw [Real.log_one, sub_zero] at hlb
    have hnum : (1 : ℝ) + 1e-6 - 1 = 1e-6 := by norm_num
    rw [hnum] at hlb
    unfold ka_f
    rw [hkeH, Real.log_one, sub_zero, hnum, lt_sub_iff_add_lt, zero_add,
      lt_div_iff₀ (by norm_num : (0:ℝ) < 1e-6)]
    have hstep : 1/(Real.exp 1 - 1) * 1e-6 < 1e-6 / (1 + 1e-6) := by
      rw [show (1:ℝ)/(Real.exp 1 - 1) * 1e-6 = 1e-6/(Real.exp 1 - 1) by ring,
        div_lt_div_iff₀ he1 (by norm_num : (0:ℝ) < 1 + 1e-6)]
      nlinarith
    linarith
  -- sign at the upper bracket end 10
  have hfb : ka_f (1/(Real.exp 1 - 1)) (Real.log 2) 10 < 0 := by
    have hlog10 : Real.log 10 < 4 * Real.log 2 := by
      have h1 : Real.log 10 < Real.log 16 :=
        Real.log_lt_log (by norm_num) (by norm_num)
      have h2 : Real.log 16 = 4 * Real.log 2 := by
        rw [show (16:ℝ) = 2 ^ 4 by norm_num, Real.log_pow]
        norm_num
      linarith
    have hlog2lt : Real.log 2 < 0.6931471808 := Real.log_two_lt_d9
    unfold ka_f
    rw [hkeH, Real.log_one, sub_zero, sub_neg,
      div_lt_div_iff₀ (by norm_num : (0:ℝ) < 10 - 1) he1]
    nlinarith
  have hsign : ka_f (1/(Real.exp 1 - 1)) (Real.log 2) (k_elim (Real.log 2) + 1e-6)
      * ka_f (1/(Real.exp 1 - 1)) (Real.log 2) 10 ≤ 0 :=
    mul_nonpos_iff.2 (Or.inl ⟨hfa.le, hfb.le⟩)
  have hx : ka_f (1/(Real.exp 1 - 1)) (Real.log 2) (k_elim (Real.log 2) + 1e-6)
        * ka_f (1/(Real.exp 1 - 1)) (Real.log 2) 10 ≤ 0
      ∧ ∃ x, k_elim (Real.log 2) + 1e-6 ≤ x ∧ x ≤ 10
          ∧ ka_f (1/(Real.exp 1 - 1)) (Real.log 2) x = 0 :=
    ⟨hsign, ⟨Real.exp 1, by rw [hkeH]; linarith, by linarith, hroot⟩⟩
  have heq : estimate_ka (1/(Real.exp 1 - 1)) (Real.log 2)
      = KaResult.root (ka_root_value (estimate_ka (1/(Real.exp 1 - 1)) (Real.log 2))) := by
    unfold estimate_ka
    rw [dif_pos hx]
    rfl
  have hspec := estimate_ka_root_in_bracket _ _ _ heq
  exact ⟨heq, hspec.1, hspec.2.1⟩

/-- C1: superposition/linearity — for positive `half_life`, positive `ka`
distinct from the elimination constant, and any window, simulating the
concatenation of two schedules yields at every grid point exactly the sum
of the amounts from simulating each schedule alone. -/
theorem superposition_of_append (t1 a1 t2 a2 : List ℝ)
    (half_life k_absorb t_end dt : ℝ)
    (hhl : 0 < half_life) (hka : 0 < k_absorb)
    (hne : k_absorb ≠ k_elim half_life) (hlen : t1.length = a1.length) :
    ∀ i : ℕ,
      (concentration_profile (t1 ++ t2) (a1 ++ a2) half_life k_absorb t_end dt).2.getD i 0
        = (concentration_profile t1 a1 half_life k_absorb t_end dt).2.getD i 0
          + (concentration_profile t2 a2 half_life k_absorb t_end dt).2.getD i 0 := by
  intro i
  simp only [concentration_profile, List.getD_eq_getElem?_getD, List.getElem?_map]
  cases hg : (arange (t_end + dt) dt)[i]? with
  | none => simp [hg]
  | some x =>
    simp only [hg, Option.map_some', Option.getD_some]
    exact conc_append t1 a1 t2 a2 half_life k_absorb x hlen

/-- Witness for C1 at `half_life = 3`, `ka = 1`, schedules `[(0,10)]` and
`[(1,5)]`, window `t_end = 1`, `dt = 1`, grid index 0. -/
theorem superposition_of_append_witness :
    (0:ℝ) < 3 ∧ (0:ℝ) < 1 ∧ (1:ℝ) ≠ k_elim 3
    ∧ (concentration_profile ([0] ++ [1]) ([10] ++ [5]) 3 1 1 1).2.getD 0 0
        = (concentration_profile [0] [10] 3 1 1 1).2.getD 0 0
          + (concentration_profile [1] [5] 3 1 1 1).2.getD 0 0 :=
  ⟨by norm_num, by norm_num, one_ne_k_elim_three,
    superposition_of_append [0] [10] [1] [5] 3 1 1 1
      (by norm_num) (by norm_num) one_ne_k_elim_three rfl 0⟩

/-- C3 counterexample: at the invalid parameter `half_life = -3 ≤ 0`
(likewise for any other unvalidated input) the simulation does not raise or
return any error — the embedded function, like the Python function, has no
error outcome at all: it computes and returns a full two-point series,
whose first amount is 0. -/
theorem no_validation_counterexample :
    (concentration_profile [0] [10] (-3) (3/2) 1 1).2.length = 2
    ∧ (concentration_profile [0] [10] (-3) (3/2) 1 1).2.getD 0 0 = 0 := by
  have hceil : ⌈((1:ℝ) + 1) / 1⌉₊ = 2 := by norm_num
  constructor
  · simp only [concentration_profile, List.length_map]
    rw [arange_length, hceil]
  · rw [profile_value_getD _ _ _ _ _ _ 0 (by rw [hceil]; norm_num)]
    rw [show ((0:ℕ):ℝ) * 1 = 0 by norm_num]
    simp only [conc, List.zip_cons_cons, List.zip_nil_right, List.map_cons,
      List.map_nil, List.sum_cons, List.sum_nil, add_zero]
    exact doseContrib_of_le (-3) (3/2) 0 10 0 le_rfl

/-- C3 amended: the code performs no parameter validation at all — for every
input, including non-positive `half_life`, `step` or `duration` and
`k_absorb` equal to the elimination constant, `concentration_profile`
computes and returns a full series with one amount per grid point (with
`ka = k` the float code divides by zero and fills the series with
`inf`/`NaN` instead of raising). -/
theorem no_validation_total (times amts : List ℝ)
    (half_life k_absorb t_end dt : ℝ) :
    (concentration_profile times amts half_life k_absorb t_end dt).2.length
        = ⌈(t_end + dt) / dt⌉₊
    ∧ (concentration_profile times amts half_life k_absorb t_end dt).1.length
        = ⌈(t_end + dt) / dt⌉₊ := by
  refine ⟨?_, ?_⟩ <;> simp only [concentration_profile, List.length_map] <;>
    rw [arange_length]

/-- C4: a dose contributes exactly zero at every time strictly before its
own dose time, and a simulation whose dose times all strictly exceed a
time `t` has amount exactly 0 at `t`. -/
theorem zero_before_dose_time (half_life k_absorb : ℝ) :
    (∀ t_d dose t : ℝ, 0 ≤ t_d → t < t_d →
        doseContrib half_life k_absorb t_d dose t = 0)
    ∧ ∀ (times amts : List ℝ) (t : ℝ), (∀ s ∈ times, t < s) →
        conc times amts half_life k_absorb t = 0 :=
  ⟨fun t_d dose t _ hlt => doseContrib_of_le _ _ _ _ _ hlt.le,
    fun times amts t h => conc_eq_zero_of_forall_lt times amts half_life k_absorb t h⟩

/-- Witness for C4: dose `(2, 5)` contributes 0 at `t = 1 < 2`, and the
schedule `[(2, 5)]` simulates to amount 0 at `t = 1`. -/
theorem zero_before_dose_time_witness :
    (0:ℝ) ≤ 2 ∧ (1:ℝ) < 2
    ∧ doseContrib 3 (3/2) 2 5 1 = 0
    ∧ conc [2] [5] 3 (3/2) 1 = 0 :=
  ⟨by norm_num, by norm_num,
    (zero_before_dose_time 3 (3/2)).1 2 5 1 (by norm_num) (by norm_num),
    (zero_before_dose_time 3 (3/2)).2 [2] [5] 1 (by
      intro s hs
      rw [List.mem_singleton.1 hs]
      norm_num)⟩

/-- C5 counterexample: for `duration = 1` and `step = 2/3` the code grid is
`[0, 2/3, 4/3]` (three points — `np.arange(0, duration + step, step)` runs
one index past `⌊duration/step⌋` whenever `step` does not divide
`duration`), not the two points `i·step` for `i = 0 … ⌊duration/step⌋`
asserted by the claim. -/
theorem grid_floor_counterexample :
    ¬ ((concentration_profile [] [] 3 1 1 (2/3)).1
        = (List.range (⌊(1:ℝ) / (2/3)⌋₊ + 1)).map (fun i : ℕ => (i : ℝ) * (2/3))) := by
  intro h
  have hlen := congrArg List.length h
  have hdiv : ((1:ℝ) + 2/3) / (2/3) = 5/2 := by norm_num
  have hceil : ⌈(5/2 : ℝ)⌉₊ = 3 := by
    rw [Nat.ceil_eq_iff (by norm_num)]
    norm_num
  have hfloor : ⌊(1:ℝ) / (2/3)⌋₊ = 1 := by
    rw [show (1:ℝ) / (2/3) = 3/2 by norm_num,
      Nat.floor_eq_iff (by norm_num)]
    norm_num
  simp only [concentration_profile] at hlen
  rw [arange_length, List.length_map, List.length_range, hdiv, hceil, hfloor] at hlen
  norm_num at hlen

/-- C5 amended: for positive `duration` and `step` the grid is exactly
`t_i = i·step` for `i = 0 … ⌈duration/step⌉` inclusive — uniformly spaced,
starting at 0, with last point `⌈duration/step⌉·step ≥ duration`.  (The
claimed `⌊duration/step⌋` bound holds only when `step` divides `duration`,
where floor and ceiling agree.) -/
theorem grid_spec (duration step : ℝ) (hd : 0 < duration) (hs : 0 < step)
    (times amts : List ℝ) (hl ka : ℝ) :
    (concentration_profile times amts hl ka duration step).1
        = (List.range (⌈duration / step⌉₊ + 1)).map (fun i : ℕ => (i : ℝ) * step)
    ∧ duration ≤ (⌈duration / step⌉₊ : ℝ) * step := by
  constructor
  · simp only [concentration_profile]
    unfold arange
    rw [ceil_grid_add_one duration step hd.le hs]
  · exact (div_le_iff₀ hs).1 (Nat.le_ceil (duration / step))

/-- Witness for C5 (amended) at `duration = 1`, `step = 2/3`. -/
theorem grid_spec_witness :
    (0:ℝ) < 1 ∧ (0:ℝ) < 2/3
    ∧ (concentration_profile [] [] 3 1 1 (2/3)).1
        = (List.range (⌈(1:ℝ) / (2/3)⌉₊ + 1)).map (fun i : ℕ => (i : ℝ) * (2/3))
    ∧ (1:ℝ) ≤ (⌈(1:ℝ) / (2/3)⌉₊ : ℝ) * (2/3) :=
  ⟨by norm_num, by norm_num,
    (grid_spec 1 (2/3) (by norm_num) (by norm_num) [] [] 3 1).1,
    (grid_spec 1 (2/3) (by norm_num) (by norm_num) [] [] 3 1).2⟩

/-- C7: every amount in the series is nonnegative, for every schedule with
positive amounts, positive `half_life`, and positive `ka` distinct from the
elimination constant — including `ka` below the elimination constant. -/
theorem profile_values_nonneg (times amts : List ℝ)
    (half_life k_absorb t_end dt : ℝ)
    (hhl : 0 < half_life) (hka : 0 < k_absorb)
    (hne : k_absorb ≠ k_elim half_life) (hamts : ∀ a ∈ amts, 0 < a) :
    ∀ i : ℕ,
      0 ≤ (concentration_profile times amts half_life k_absorb t_end dt).2.getD i 0 := by
  intro i
  simp only [concentration_profile, List.getD_eq_getElem?_getD, List.getElem?_map]
  cases hg : (arange (t_end + dt) dt)[i]? with
  | none => simp [hg]
  | some x =>
    simp only [hg, Option.map_some', Option.getD_some]
    exact conc_nonneg times amts half_life k_absorb x hhl hka hne hamts

/-- Witness for C7 at schedule `[(0, 10)]`, `half_life = 3`, `ka = 1`
(which is above `k = ln 2 / 3`), window `t_end = 1`, `dt = 1`, index 0. -/
theorem profile_values_nonneg_witness :
    (0:ℝ) < 3 ∧ (0:ℝ) < 1 ∧ (1:ℝ) ≠ k_elim 3
    ∧ 0 ≤ (concentration_profile [0] [10] 3 1 1 1).2.getD 0 0 :=
  ⟨by norm_num, by norm_num, one_ne_k_elim_three,
    profile_values_nonneg [0] [10] 3 1 1 1 (by norm_num) (by norm_num)
      one_ne_k_elim_three
      (by
        intro a ha
        rw [List.mem_singleton.1 ha]
        norm_num) 0⟩

/-- C8: the peak amount reported by `summarize` is the maximum of the
series (an upper bound that is attained), and the reported peak time is the
grid time at the argmax index, which is the FIRST index attaining the
maximum: it is in range, its value equals the peak, and every earlier value
is strictly below the peak. -/
theorem summarize_peak_first_max (ts vals : List ℝ) (h : vals ≠ []) :
    (∀ v ∈ vals, v ≤ (summarize ts vals).1)
    ∧ vals.getD (np_argmax vals) 0 = (summarize ts vals).1
    ∧ np_argmax vals < vals.length
    ∧ (∀ j < np_argmax vals, vals.getD j 0 < (summarize ts vals).1)
    ∧ (summarize ts vals).2.1 = ts.getD (np_argmax vals) 0 :=
  ⟨le_np_max vals, getD_np_argmax vals h, np_argmax_lt_length vals h,
    fun j hj => getD_lt_np_max_of_lt_argmax vals j hj, rfl⟩

/-- Witness for C8 on the series `[1, 2]` with grid `[0, 5]`. -/
theorem summarize_peak_first_max_witness :
    ([(1:ℝ), 2] ≠ [])
    ∧ [(1:ℝ), 2].getD (np_argmax [(1:ℝ), 2]) 0 = (summarize [0, 5] [(1:ℝ), 2]).1
    ∧ np_argmax [(1:ℝ), 2] < ([(1:ℝ), 2]).length := by
  have h : [(1:ℝ), 2] ≠ [] := by simp
  exact ⟨h, (summarize_peak_first_max [0, 5] [(1:ℝ), 2] h).2.1,
    (summarize_peak_first_max [0, 5] [(1:ℝ), 2] h).2.2.1⟩

/-- C9: the AUC (trapezoidal integration of the series against the grid,
line 162) is nonnegative for valid parameters, and rescaling every dose
amount by `c ≥ 0` rescales the AUC by exactly `c`. -/
theorem auc_nonneg_and_scales (times amts : List ℝ)
    (half_life k_absorb t_end dt c : ℝ)
    (hhl : 0 < half_life) (hka : 0 < k_absorb)
    (hne : k_absorb ≠ k_elim half_life) (hamts : ∀ a ∈ amts, 0 < a)
    (hdt : 0 < dt) (hc : 0 ≤ c) :
    0 ≤ trapz (concentration_profile times amts half_life k_absorb t_end dt).2
          (concentration_profile times amts half_life k_absorb t_end dt).1
    ∧ trapz (concentration_profile times (amts.map (fun a => c * a))
            half_life k_absorb t_end dt).2
          (concentration_profile times (amts.map (fun a => c * a))
            half_life k_absorb t_end dt).1
      = c * trapz (concentration_profile times amts half_life k_absorb t_end dt).2
          (concentration_profile times amts half_life k_absorb t_end dt).1 := by
  constructor
  · apply trapz_nonneg
    · intro y hy
      simp only [concentration_profile] at hy
      obtain ⟨x, hx, rfl⟩ := List.mem_map.1 hy
      exact conc_nonneg times amts half_life k_absorb x hhl hka hne hamts
    · simp only [concentration_profile]
      exact arange_chain' (t_end + dt) dt hdt.le
  · have hmap : (concentration_profile times (amts.map (fun a => c * a))
          half_life k_absorb t_end dt).2
        = ((concentration_profile times amts half_life k_absorb t_end dt).2).map
            (fun y => c * y) := by
      simp only [concentration_profile]
      rw [List.map_map]
      apply List.map_congr_left
      intro x hx
      exact conc_smul times amts half_life k_absorb x c
    have hsame : (concentration_profile times (amts.map (fun a => c * a))
          half_life k_absorb t_end dt).1
        = (concentration_profile times amts half_life k_absorb t_end dt).1 := rfl
    rw [hmap, hsame, trapz_smul]

/-- Witness for C9 at schedule `[(0, 10)]`, `half_life = 3`, `ka = 1`,
window `t_end = 1`, `dt = 1`, scale `c = 2`. -/
theorem auc_nonneg_and_scales_witness :
    (0:ℝ) < 3 ∧ (1:ℝ) ≠ k_elim 3 ∧ (0:ℝ) ≤ 2
    ∧ 0 ≤ trapz (concentration_profile [0] [10] 3 1 1 1).2
            (concentration_profile [0] [10] 3 1 1 1).1
    ∧ trapz (concentration_profile [0] ([10].map (fun a => (2:ℝ) * a)) 3 1 1 1).2
          (concentration_profile [0] ([10].map (fun a => (2:ℝ) * a)) 3 1 1 1).1
      = 2 * trapz (concentration_profile [0] [10] 3 1 1 1).2
            (concentration_profile [0] [10] 3 1 1 1).1 := by
  have hth := auc_nonneg_and_scales [0] [10] 3 1 1 1 2 (by norm_num) (by norm_num)
    one_ne_k_elim_three
    (by
      intro a ha
      rw [List.mem_singleton.1 ha]
      norm_num)
    (by norm_num) (by norm_num)
  exact ⟨by norm_num, one_ne_k_elim_three, by norm_num, hth.1, hth.2⟩

/-- C10: with time and amount lists of unequal length the simulation does
not fail — `zip` drops the trailing entries of the longer list, so the
result equals the simulation of the first `min` of the two lengths
time/amount pairs. -/
theorem unequal_lengths_truncate (times amts : List ℝ)
    (half_life k_absorb t_end dt : ℝ) :
    concentration_profile times amts half_life k_absorb t_end dt
      = concentration_profile (times.take (min times.length amts.length))
          (amts.take (min times.length amts.length)) half_life k_absorb t_end dt := by
  have hconc : conc times amts half_life k_absorb
      = conc (times.take (min times.length amts.length))
          (amts.take (min times.length amts.length)) half_life k_absorb := by
    funext x
    unfold conc
    rw [← zip_take_min]
  simp only [concentration_profile]
  rw [hconc]

end RitalinSim
